import Mathlib

/-!
Verification development for the AsyncSqliteManager history-dump core.

We give a shallow embedding of the buffer (`cloggable_list.py`), the merge
algebra (`async_history_dump/merge.py`), the format writers
(`async_history_dump/writers.py`), the job facade
(`async_history_dump/async_history_dump.py`) and the history coordinator
(`manager/history.py`), and prove or refute the frozen claims about them.

Python values are embedded as the inductive `PyVal`; Python dicts are
insertion-ordered association lists with unique keys; files are embedded by
their parsed content (a JSON document for the document writer, a list of
lines for the line writer, a cell grid for the table writer), with `Option`
tracking whether the file exists.  Fallible code returns `Except String`.
-/

set_option autoImplicit false

namespace AsyncSqliteManager

/-- Embedding of the Python values that flow through the dump pipeline:
null, booleans, integers, strings, lists, tuples, sets and (string-keyed)
dicts.  Dicts are insertion-ordered association lists. -/
inductive PyVal where
  | noneV : PyVal
  | boolV : Bool → PyVal
  | intV : Int → PyVal
  | strV : String → PyVal
  | listV : List PyVal → PyVal
  | tupleV : List PyVal → PyVal
  | setV : List PyVal → PyVal
  | dictV : List (String × PyVal) → PyVal

mutual

/-- Structural boolean equality on `PyVal` (Python `==` restricted to the
embedded value forms). -/
def pyBeq : PyVal → PyVal → Bool
  | .noneV, .noneV => true
  | .boolV a, .boolV b => a == b
  | .intV a, .intV b => a == b
  | .strV a, .strV b => a == b
  | .listV a, .listV b => pyBeqList a b
  | .tupleV a, .tupleV b => pyBeqList a b
  | .setV a, .setV b => pyBeqList a b
  | .dictV a, .dictV b => pyBeqDict a b
  | _, _ => false

/-- Elementwise `pyBeq` on lists. -/
def pyBeqList : List PyVal → List PyVal → Bool
  | [], [] => true
  | x :: xs, y :: ys => pyBeq x y && pyBeqList xs ys
  | _, _ => false

/-- Elementwise `pyBeq` on dict entry lists. -/
def pyBeqDict : List (String × PyVal) → List (String × PyVal) → Bool
  | [], [] => true
  | (k1, v1) :: xs, (k2, v2) :: ys => k1 == k2 && pyBeq v1 v2 && pyBeqDict xs ys
  | _, _ => false

end

instance : BEq PyVal := ⟨pyBeq⟩

/-- Python `d.get(k)` restricted to string keys: first binding wins
(keys are unique in a real dict). -/
def dictGet (es : List (String × PyVal)) (k : String) : Option PyVal :=
  match es with
  | [] => Option.none
  | (k0, v0) :: rest => if k0 = k then some v0 else dictGet rest k

/-- Python `d[k] = v`: replace the value at the first binding of `k`
keeping its position, or append a new binding at the end. -/
def dictSet (es : List (String × PyVal)) (k : String) (v : PyVal) :
    List (String × PyVal) :=
  match es with
  | [] => [(k, v)]
  | (k0, v0) :: rest =>
      if k0 = k then (k0, v) :: rest else (k0, v0) :: dictSet rest k v

/-- Python `d1.update(d2)`: apply `dictSet` for each binding of `d2` in
order, so values of `d2` win on shared keys and new keys append at the end. -/
def dictUpdate (d1 d2 : List (String × PyVal)) : List (String × PyVal) :=
  d2.foldl (fun acc kv => dictSet acc kv.1 kv.2) d1

/-- Python `s1.update(s2)` on sets, at the level of the list model:
add the members of `s2` missing from `s1`. -/
def setUpdate (s1 s2 : List PyVal) : List PyVal :=
  s1 ++ s2.filter (fun x => ¬ s1.contains x)

/- ===================== merge.py ===================== -/

/-- `merge.force_list`: normalize any value into a list for flat outputs
(null becomes empty, list/tuple/set become their elements, anything else —
including a string — becomes a one-element list). -/
def force_list : PyVal → List PyVal
  | .noneV => []
  | .listV xs => xs
  | .tupleV xs => xs
  | .setV xs => xs
  | v => [v]

/-- `merge.merge_flat`: flat merge for TXT/CSV targets. -/
def merge_flat (existing new : PyVal) (mode : String) :
    Except String (List PyVal) :=
  let existing_list := force_list existing
  let new_list := force_list new
  if mode = "overwrite" then .ok new_list
  else if mode = "append" ∨ mode = "extend" ∨ mode = "update" then
    .ok (existing_list ++ new_list)
  else .error ("ValueError: unsupported mode " ++ mode ++ " for flat output")

/-- `merge.apply_mode_json`: merge logic for root-level JSON writes. -/
def apply_mode_json (existing data : PyVal) (mode : String) :
    Except String PyVal :=
  if mode = "overwrite" then .ok data
  else if mode = "append" then
    match existing, data with
    | .listV xs, d => .ok (.listV (xs ++ [d]))
    | .dictV d1, .dictV d2 => .ok (.dictV (dictUpdate d1 d2))
    | .setV s1, .setV s2 => .ok (.setV (setUpdate s1 s2))
    | e, d => .ok (.listV [e, d])
  else if mode = "extend" ∨ mode = "update" then
    match existing, data with
    | .listV xs, .listV ys => .ok (.listV (xs ++ ys))
    | .listV _, _ => .error "ValueError: cannot extend list with non-list"
    | .dictV d1, .dictV d2 => .ok (.dictV (dictUpdate d1 d2))
    | .setV s1, .setV s2 => .ok (.setV (setUpdate s1 s2))
    | _, _ => .error "ValueError: update or extend not supported for type"
  else .error ("ValueError: unsupported JSON mode " ++ mode)

/-- The append branch of `merge.apply_nested_json`. -/
def nestedAppendSlot (container : List (String × PyVal)) (last_key : String)
    (target data : PyVal) : Except String (List (String × PyVal)) :=
  match target, data with
  | .noneV, d => .ok (dictSet container last_key (.listV [d]))
  | .listV xs, d => .ok (dictSet container last_key (.listV (xs ++ [d])))
  | .dictV d1, .dictV d2 =>
      .ok (dictSet container last_key (.dictV (dictUpdate d1 d2)))
  | t, d => .ok (dictSet container last_key (.listV [t, d]))

/-- The extend/update branch of `merge.apply_nested_json`. -/
def nestedExtendSlot (container : List (String × PyVal)) (last_key : String)
    (target data : PyVal) : Except String (List (String × PyVal)) :=
  match target, data with
  | .noneV, d => .ok (dictSet container last_key d)
  | .listV xs, .listV ys =>
      .ok (dictSet container last_key (.listV (xs ++ ys)))
  | .dictV d1, .dictV d2 =>
      .ok (dictSet container last_key (.dictV (dictUpdate d1 d2)))
  | .setV s1, .setV s2 =>
      .ok (dictSet container last_key (.setV (setUpdate s1 s2)))
  | _, _ =>
      .error "ValueError: update or extend not supported for nested type"

/-- `merge.apply_nested_json`: merge logic at the addressed slot of a
nested key path.  Mirrors `container.get(last_key)`, which yields Python
`None` both for an absent key and for a stored JSON null. -/
def apply_nested_json (container : List (String × PyVal)) (last_key : String)
    (data : PyVal) (mode : String) : Except String (List (String × PyVal)) :=
  let target := (dictGet container last_key).getD .noneV
  if mode = "overwrite" then .ok (dictSet container last_key data)
  else if mode = "append" then nestedAppendSlot container last_key target data
  else if mode = "extend" ∨ mode = "update" then
    nestedExtendSlot container last_key target data
  else .error ("ValueError: unsupported nested mode " ++ mode)

/-- The functional composition of `merge.resolve_nested` with
`merge.apply_nested_json`: walk all but the last key segment through dict
lookups.  A present dict value is descended into; an absent or non-dict
value is replaced by a fresh empty dict when `create` holds and raises
`KeyError` otherwise.  Non-dict containers raise, as the corresponding
Python subscript or `.get` does. -/
def applyNested (obj : PyVal) (key : List String) (data : PyVal)
    (mode : String) (create : Bool) : Except String PyVal :=
  match key with
  | [] => .error "IndexError: empty key path"
  | [k] =>
      match obj with
      | .dictV es => (apply_nested_json es k data mode).map .dictV
      | _ => .error "AttributeError: container is not a dict"
  | k :: rest =>
      match obj with
      | .dictV es =>
          match dictGet es k with
          | some (.dictV sub) => do
              let s2 ← applyNested (.dictV sub) rest data mode create
              pure (.dictV (dictSet es k s2))
          | _ =>
              if create then do
                let s2 ← applyNested (.dictV []) rest data mode create
                pure (.dictV (dictSet es k s2))
              else .error "KeyError: key path does not exist in JSON"
      | _ => .error "TypeError: intermediate value is not a dict"

/- ===================== Python display forms ===================== -/

mutual

/-- Python `repr` of an embedded value (the form used for container
elements when a value is rendered into a text line or table cell). -/
def pyRepr : PyVal → String
  | .noneV => "None"
  | .boolV b => if b then "True" else "False"
  | .intV n => toString n
  | .strV s => "\x27" ++ s ++ "\x27"
  | .listV xs => "[" ++ pyReprSep xs ++ "]"
  | .tupleV [x] => "(" ++ pyRepr x ++ ",)"
  | .tupleV xs => "(" ++ pyReprSep xs ++ ")"
  | .setV [] => "set()"
  | .setV xs => "\x7b" ++ pyReprSep xs ++ "\x7d"
  | .dictV es => "\x7b" ++ pyReprSepDict es ++ "\x7d"

/-- Comma-separated `repr` of list elements. -/
def pyReprSep : List PyVal → String
  | [] => ""
  | [x] => pyRepr x
  | x :: xs => pyRepr x ++ ", " ++ pyReprSep xs

/-- Comma-separated `repr` of dict entries. -/
def pyReprSepDict : List (String × PyVal) → String
  | [] => ""
  | [(k, v)] => "\x27" ++ k ++ "\x27: " ++ pyRepr v
  | (k, v) :: es => "\x27" ++ k ++ "\x27: " ++ pyRepr v ++ ", " ++ pyReprSepDict es

end

/-- Python `str` of an embedded value: identical to `repr` except on
strings, which render unquoted. -/
def pyStr : PyVal → String
  | .strV s => s
  | v => pyRepr v

/- ===================== writers.py: JSON ===================== -/

/-- A document-format file: `none` when the file does not exist, otherwise
its parsed JSON content.  (`_read_json` treats an empty or unparseable
existing file like a missing one, so parsed content loses no generality.) -/
abbrev JsonFile := Option PyVal

/-- Python truthiness of an optional key-path tuple: truthy exactly when
present and nonempty. -/
def keyTruthy : Option (List String) → Bool
  | some (_ :: _) => true
  | _ => false

/-- `JSONWriter._read_json`: a missing file reads as an empty dict when a
(truthy, i.e. nonempty) key path was given, and as an empty list otherwise. -/
def readJson (f : JsonFile) (key : Option (List String)) : PyVal :=
  match f with
  | some v => v
  | Option.none =>
      match key with
      | some (_ :: _) => .dictV []
      | _ => .listV []

/-- `JSONWriter._validate_strict_key`: every segment of the key path must
be present and reached through dicts; a non-dict current value raises
`TypeError`, an absent segment raises `KeyError`. -/
def validate_strict_key : PyVal → List String → Except String Unit
  | _, [] => .ok ()
  | .dictV es, k :: rest =>
      match dictGet es k with
      | some v => validate_strict_key v rest
      | Option.none => .error "KeyError: strict key violation"
  | _, _ :: _ => .error "TypeError: strict key violation"

/-- The merge stage of `JSONWriter.write_single`: everything that runs
before the destination is opened for writing (read, strict-key validation,
root or nested merge).  An error here means the file is never opened. -/
def jsonWriteCore (f : JsonFile) (data : PyVal) (mode : String)
    (key : Option (List String)) (strict_keys : Bool) : Except String PyVal := do
  let existing := readJson f key
  if strict_keys && keyTruthy key then
    discard <| validate_strict_key existing (key.getD [])
  match key with
  | Option.none => apply_mode_json existing data mode
  | some ks => applyNested existing ks data mode (!strict_keys)

/-- `JSONWriter.write_single` at the file level: on success the file is
rewritten with the merged document; on error the file is left untouched
(in the source every raise precedes the open-for-write). -/
def jsonWriteSingle (f : JsonFile) (data : PyVal) (mode : String)
    (key : Option (List String)) (strict_keys : Bool) :
    JsonFile × Option String :=
  match jsonWriteCore f data mode key strict_keys with
  | .ok v => (some v, Option.none)
  | .error e => (f, some e)

/-- `JSONWriter.write_batch`: a loop of `write_single` calls against the
same file; the first raise aborts the remaining iterations, leaving the
writes already performed in place. -/
def jsonWriteBatch (f : JsonFile) (ds : List PyVal) (mode : String)
    (key : Option (List String)) (strict_keys : Bool) :
    JsonFile × Option String :=
  match ds with
  | [] => (f, Option.none)
  | d :: rest =>
      match jsonWriteSingle f d mode key strict_keys with
      | (f2, Option.none) => jsonWriteBatch f2 rest mode key strict_keys
      | (f2, some e) => (f2, some e)

/- ===================== writers.py: TXT ===================== -/

/-- A line-format file: `none` when missing, otherwise its lines. -/
abbrev TxtFile := Option (List String)

/-- The flat-batch flattening loop shared by `TXTWriter.write_batch` and
`CSVWriter.write_batch`: list items are spliced element by element, every
other item is appended as a single element. -/
def flattenBatch (ds : List PyVal) : List PyVal :=
  ds.foldl
    (fun acc d => match d with | .listV xs => acc ++ xs | x => acc ++ [x]) []

/-- `TXTWriter.write_single`: read the existing lines unless the file is
missing or the mode is overwrite, flat-merge, rewrite the whole file with
one rendered line per merged element. -/
def txtWriteSingle (f : TxtFile) (data : PyVal) (mode : String) :
    TxtFile × Option String :=
  let existing : List PyVal :=
    if f.isSome ∧ mode ≠ "overwrite" then (f.getD []).map .strV else []
  match merge_flat (.listV existing) data mode with
  | .ok merged => (some (merged.map pyStr), Option.none)
  | .error e => (f, some e)

/-- `TXTWriter.write_batch`: read once, flatten the batch into one combined
list, flat-merge once, write once. -/
def txtWriteBatch (f : TxtFile) (ds : List PyVal) (mode : String) :
    TxtFile × Option String :=
  let existing : List PyVal :=
    if f.isSome ∧ mode ≠ "overwrite" then (f.getD []).map .strV else []
  let combined := flattenBatch ds
  match merge_flat (.listV existing) (.listV combined) mode with
  | .ok merged => (some (merged.map pyStr), Option.none)
  | .error e => (f, some e)

/- ===================== writers.py: CSV ===================== -/

/-- A table-format file: `none` when missing, otherwise its cell grid. -/
abbrev CsvFile := Option (List (List String))

/-- `writers._is_header`: a row is a header iff some cell contains an
alphabetic character. -/
def is_header (row : List String) : Bool :=
  row.any (fun cell => cell.data.any Char.isAlpha)

/-- `CSVWriter._read_csv`: split off the first row as the header when the
header heuristic accepts it. -/
def csvRead (f : CsvFile) : Option (List String) × List (List String) :=
  match f with
  | Option.none => (Option.none, [])
  | some [] => (Option.none, [])
  | some (r0 :: rest) =>
      if is_header r0 then (some r0, rest) else (Option.none, r0 :: rest)

/-- The header-collection loop of `CSVWriter._write_csv`: fold the keys of
every dict row, in order, onto the seed header, appending unseen keys. -/
def collectHeaders (seed : List String) (rows : List PyVal) : List String :=
  rows.foldl
    (fun hs r =>
      match r with
      | .dictV es =>
          es.foldl (fun hs2 kv => if kv.1 ∈ hs2 then hs2 else hs2 ++ [kv.1]) hs
      | _ => hs)
    seed

/-- Positional mapping of a list row onto a header: cell `i` is the
rendered `i`-th element, or empty past the end of the row; excess row
elements are dropped. -/
def padCells (headers : List String) (xs : List PyVal) : List String :=
  (List.range headers.length).map
    (fun i => match xs[i]? with | some v => pyStr v | Option.none => "")

/-- One output row of the headered branches of `CSVWriter._write_csv`: a
dict row is looked up key by key, a list row is mapped positionally (with
the sole value shortcut for a single-column header), and any other row is
stringified into the first column — raising `IndexError` when there is no
first column, as `mapped[headers[0]]` does. -/
def rowCells (headers : List String) : PyVal → Except String (List String)
  | .dictV es =>
      .ok (headers.map
        (fun h => match dictGet es h with | some v => pyStr v | Option.none => ""))
  | .listV xs =>
      if headers.length = 1 then
        .ok [match xs.head? with | some v => pyStr v | Option.none => ""]
      else .ok (padCells headers xs)
  | r =>
      match headers with
      | [] => .error "IndexError: no first column for scalar row"
      | h0 :: hs =>
          if (h0 :: hs).length = 1 then .ok [pyStr r]
          else .ok (pyStr r :: hs.map (fun _ => ""))

/-- The raw branch of `CSVWriter._write_csv` (`csv.writer.writerows`): a
row must be iterable; strings iterate per character, non-iterables raise. -/
def csvRawRow : PyVal → Except String (List String)
  | .listV xs => .ok (xs.map pyStr)
  | .tupleV xs => .ok (xs.map pyStr)
  | .setV xs => .ok (xs.map pyStr)
  | .strV s => .ok (s.toList.map (fun c => String.singleton c))
  | _ => .error "Error: iterable expected"

/-- `CSVWriter._write_csv` at grid level: an empty merged row set truncates
the file; if any row is a dict, reconcile headers and write a headered
grid; otherwise keep a (truthy) pre-existing header, or fall back to the
raw grid. -/
def csvWriteGrid (rows : List PyVal) (existing_header : Option (List String)) :
    Except String (List (List String)) :=
  if rows.isEmpty then .ok []
  else if rows.any (fun r => match r with | .dictV _ => true | _ => false) then
    let headers := collectHeaders (existing_header.getD []) rows
    do
      let body ← rows.mapM (rowCells headers)
      pure (headers :: body)
  else
    match existing_header with
    | some (h0 :: hs) => do
        let body ← rows.mapM (rowCells (h0 :: hs))
        pure ((h0 :: hs) :: body)
    | _ => rows.mapM csvRawRow

/-- `CSVWriter.write_single`: wrap a non-list payload, read header and rows
unless missing or overwriting, flat-merge, rewrite the grid.  Errors raise
before the destination is opened, leaving the file untouched. -/
def csvWriteSingle (f : CsvFile) (data : PyVal) (mode : String) :
    CsvFile × Option String :=
  let data2 := match data with | .listV xs => PyVal.listV xs | d => PyVal.listV [d]
  let hr :=
    if f.isSome ∧ mode ≠ "overwrite" then csvRead f else (Option.none, [])
  let existing : List PyVal := hr.2.map (fun row => .listV (row.map .strV))
  match merge_flat (.listV existing) data2 mode with
  | .error e => (f, some e)
  | .ok merged =>
      match csvWriteGrid merged hr.1 with
      | .ok grid => (some grid, Option.none)
      | .error e => (f, some e)

/-- `CSVWriter.write_batch`: read once, flatten the batch into one combined
list, flat-merge once, rewrite the grid once. -/
def csvWriteBatch (f : CsvFile) (ds : List PyVal) (mode : String) :
    CsvFile × Option String :=
  let hr :=
    if f.isSome ∧ mode ≠ "overwrite" then csvRead f else (Option.none, [])
  let existing : List PyVal := hr.2.map (fun row => .listV (row.map .strV))
  let combined := flattenBatch ds
  match merge_flat (.listV existing) (.listV combined) mode with
  | .error e => (f, some e)
  | .ok merged =>
      match csvWriteGrid merged hr.1 with
      | .ok grid => (some grid, Option.none)
      | .error e => (f, some e)

/- ===================== async_history_dump.py ===================== -/

/-- A fully constructed `AsyncHistoryDump` job. -/
structure Dump where
  path : String
  mode : String
  filetype : String
  key : Option (List String)
  data : PyVal
  strict_keys : Bool

instance : Inhabited Dump := ⟨⟨"", "", "", Option.none, .noneV, false⟩⟩

/-- The four valid merge modes. -/
def validModes : List String := ["overwrite", "append", "update", "extend"]

/-- The three valid filetypes. -/
def validFiletypes : List String := ["json", "csv", "txt"]

/-- Python `path.endswith(suffix)`, computed on the character lists. -/
def strEndsWith (s suffix : String) : Bool :=
  suffix.data.isSuffixOf s.data

/-- `AsyncHistoryDump._resolve_filetype`: an explicit filetype must be one
of the three; autodetection inspects the path extension. -/
def resolve_filetype (path filetype : String) : Except String String :=
  if filetype ≠ "__autodetect__" then
    if filetype ∈ validFiletypes then .ok filetype
    else .error ("ValueError: invalid filetype " ++ filetype)
  else if strEndsWith path ".json" then .ok "json"
  else if strEndsWith path ".csv" then .ok "csv"
  else if strEndsWith path ".txt" then .ok "txt"
  else .error "ValueError: cannot autodetect filetype from path"

/-- `AsyncHistoryDump.__init__` with its side effect made explicit: the
first field of the result records the filesystem effects performed, and
`_normalize_path` (which runs `os.makedirs` on the parent directory) is
executed before the mode and filetype validations can raise. -/
def mkAsyncHistoryDump (path : String) (mode : String) (filetype : String)
    (key : Option (List String)) (data : PyVal) (strict_keys : Bool) :
    List String × Except String Dump :=
  let effects := ["makedirs " ++ path]
  if mode ∉ validModes then
    (effects, .error ("ValueError: invalid mode " ++ mode))
  else
    match resolve_filetype path filetype with
    | .error e => (effects, .error e)
    | .ok ft =>
        (effects,
          .ok ⟨path, mode, ft, if keyTruthy key then key else Option.none,
               data, strict_keys⟩)

/-- The group identity used by `write_many`: destination path, filetype,
and (truthiness-normalized) key. -/
abbrev GroupKey := String × String × Option (List String)

/-- The triple `(d.path, d.filetype, tuple(d.key) if d.key else None)`. -/
def dumpKey (d : Dump) : GroupKey :=
  (d.path, d.filetype, if keyTruthy d.key then d.key else Option.none)

/-- One step of the `defaultdict` grouping loop: append the job to its
group if the key is already present, otherwise open a new group at the end. -/
def insertGroup (gs : List (GroupKey × List Dump)) (t : GroupKey) (d : Dump) :
    List (GroupKey × List Dump) :=
  match gs with
  | [] => [(t, [d])]
  | (t0, ds) :: rest =>
      if t0 = t then (t0, ds ++ [d]) :: rest
      else (t0, ds) :: insertGroup rest t d

/-- The grouping loop of `AsyncHistoryDump.write_many`: jobs are grouped by
`dumpKey` preserving first-appearance group order and submission order
inside each group. -/
def groupJobs (ds : List Dump) : List (GroupKey × List Dump) :=
  ds.foldl (fun gs d => insertGroup gs (dumpKey d) d) []

/-- One planned writer invocation of `write_many`. -/
structure Call where
  gkey : GroupKey
  data_list : List PyVal
  mode : String
  strict_keys : Bool

/-- The dispatch plan of `AsyncHistoryDump.write_many`: one `write_batch`
call per group, carrying every job's payload but only the first job's mode
and strict-keys flag. -/
def writeManyPlan (ds : List Dump) : List Call :=
  (groupJobs ds).map
    (fun g =>
      ⟨g.1, g.2.map (fun d => d.data), (g.2.headD default).mode,
       (g.2.headD default).strict_keys⟩)

/- ===================== cloggable_list.py ===================== -/

/-- The capacity/tolerance-bounded buffer of `cloggable_list.py`.
`max_length` and `tolerance` hold already-validated values (the setters
reject negatives; `none` tolerance means unlimited). -/
structure CloggableList (α : Type) where
  items : List α
  max_length : Nat
  tolerance : Option Nat

/-- `CloggableList.full`: length has reached the capacity. -/
def clFull {α : Type} (l : CloggableList α) : Bool :=
  l.max_length ≤ l.items.length

/-- `CloggableList.tolerable`: within `max_length + tolerance`, always true
for unlimited tolerance. -/
def clTolerable {α : Type} (l : CloggableList α) : Bool :=
  match l.tolerance with
  | Option.none => true
  | some t => l.items.length ≤ l.max_length + t

/-- `CloggableList.append`: raise `OverflowError` when already intolerable
(leaving the list untouched), otherwise insert at the tail and signal
whether the list is now full. -/
def clAppend {α : Type} (l : CloggableList α) (x : α) :
    Except String (CloggableList α × Bool) :=
  if !clTolerable l then .error "OverflowError: list is full"
  else
    let l2 : CloggableList α := ⟨l.items ++ [x], l.max_length, l.tolerance⟩
    .ok (l2, clFull l2)

/-- `CloggableList.flush`: return all items in order and clear the list. -/
def clFlush {α : Type} (l : CloggableList α) : List α × CloggableList α :=
  (l.items, ⟨[], l.max_length, l.tolerance⟩)

/-- A selector argument of `CloggableList.extract`: a single index or an
inclusive interval. -/
inductive Selector where
  | idx : Int → Selector
  | intv : Int → Int → Selector

/-- The integer range `[a, b]` (Python `range(a, b + 1)`). -/
def intervalInts (a b : Int) : List Int :=
  (List.range (b + 1 - a).toNat).map (fun i => a + i)

/-- `Interval.flatten`: expand selectors and drop duplicates keeping first
appearance (`dict.fromkeys`). -/
def flattenSelectors (sels : List Selector) : List Int :=
  let raw := sels.flatMap
    (fun s => match s with | .idx i => [i] | .intv a b => intervalInts a b)
  raw.foldl (fun acc i => if i ∈ acc then acc else acc ++ [i]) []

/-- Insert into a sorted duplicate-free list of indices. -/
def insertSorted (i : Nat) : List Nat → List Nat
  | [] => [i]
  | j :: js =>
      if i < j then i :: j :: js
      else if i = j then j :: js
      else j :: insertSorted i js

/-- `sorted(set(indices))` for indices already known non-negative. -/
def sortDedup (xs : List Nat) : List Nat :=
  xs.foldl (fun acc i => insertSorted i acc) []

/-- `CloggableList.extract`: flatten the selectors into an index set; any
out-of-range index raises and removes nothing; otherwise return the items
at the selected indices in ascending order and delete them. -/
def clExtract {α : Type} (l : CloggableList α) (sels : List Selector) :
    Except String (List α × CloggableList α) :=
  let idxs := flattenSelectors sels
  if idxs.any (fun i => i < 0 ∨ (l.items.length : Int) ≤ i) then
    .error "IndexError: index out of range"
  else
    let sorted := sortDedup (idxs.map Int.toNat)
    let extracted := sorted.filterMap (fun i => l.items[i]?)
    let remaining :=
      (l.items.enum.filter (fun p => !sorted.contains p.1)).map Prod.snd
    .ok (extracted, ⟨remaining, l.max_length, l.tolerance⟩)

/- ===================== manager/history.py ===================== -/

/-- The state of a `HistoryManager`: the optional buffer, the optional dump
generator, and the history formatting hook.  The `asyncio.Lock` serializes
`append`; we model the serialized behaviour directly. -/
structure HistoryManager where
  history : Option (CloggableList Dump)
  history_dump_generator : Option (PyVal → Dump)
  history_format_function : PyVal → PyVal

/-- Python truthiness of `self.history`: false both for `None` and for an
empty buffer, because `CloggableList` subclasses `list`. -/
def historyTruthy : Option (CloggableList Dump) → Bool
  | Option.none => false
  | some l => !l.items.isEmpty

/-- The outcome of one `HistoryManager.append` call: the new state, the
jobs handed to `AsyncHistoryDump.write_many` when a flush was triggered,
and the propagated error if the buffer overflowed. -/
structure AppendResult where
  state : HistoryManager
  dispatched : Option (List Dump)
  error : Option String

/-- `HistoryManager.append`: return immediately when `self.history` or
`self.history_dump_generator` is falsy; otherwise build the dump, reformat
a dict payload through the formatting hook, insert into the buffer, and on
a full signal drain the buffer and dispatch it before returning. -/
def hmAppend (hm : HistoryManager) (item : PyVal) : AppendResult :=
  if !historyTruthy hm.history then ⟨hm, Option.none, Option.none⟩
  else
    match hm.history_dump_generator, hm.history with
    | some gen, some hist =>
        let dump0 := gen item
        let dump :=
          match dump0.data with
          | .dictV es =>
              { dump0 with data := hm.history_format_function (.dictV es) }
          | _ => dump0
        match clAppend hist dump with
        | .error e => ⟨hm, Option.none, some e⟩
        | .ok (h2, fullSig) =>
            if fullSig then
              let fl := clFlush h2
              ⟨{ hm with history := some fl.2 }, some fl.1, Option.none⟩
            else ⟨{ hm with history := some h2 }, Option.none, Option.none⟩
    | _, _ => ⟨hm, Option.none, Option.none⟩

/- ===================== spec-side definitions ===================== -/

/-- Spec-side reading of the document-format batch: apply `write_single`
to each payload sequentially against the evolving file, stopping at the
first error. -/
def jsonSeqSingles (f : JsonFile) (ds : List PyVal) (mode : String)
    (key : Option (List String)) (strict_keys : Bool) :
    JsonFile × Option String :=
  ds.foldl
    (fun st d =>
      match st.2 with
      | some _ => st
      | Option.none => jsonWriteSingle st.1 d mode key strict_keys)
    (f, Option.none)

/-- Spec-side flattening of a flat-format batch, following the claim's
words: every sequence item (list or tuple) is spliced element by element,
every non-sequence item becomes one element. -/
def flattenBatchClaimed (ds : List PyVal) : List PyVal :=
  ds.flatMap
    (fun d => match d with | .listV xs => xs | .tupleV xs => xs | x => [x])

/-- `TXTWriter.write_batch` as the claim describes it: read once, flatten
with sequence splicing, merge once, write once. -/
def txtWriteBatchClaimed (f : TxtFile) (ds : List PyVal) (mode : String) :
    TxtFile × Option String :=
  let existing : List PyVal :=
    if f.isSome ∧ mode ≠ "overwrite" then (f.getD []).map .strV else []
  let combined := flattenBatchClaimed ds
  match merge_flat (.listV existing) (.listV combined) mode with
  | .ok merged => (some (merged.map pyStr), Option.none)
  | .error e => (f, some e)

/-- The nested document created by a non-strict append along an absent key
path: intermediate one-key mappings ending in the one-element list holding
the payload. -/
def nestedSingleton : List String → PyVal → PyVal
  | [], d => .listV [d]
  | [k], d => .dictV [(k, .listV [d])]
  | k :: rest, d => .dictV [(k, nestedSingleton rest d)]

/-- One step of first-appearance accumulation: append the element unless
already present. -/
def addNew {β : Type} [DecidableEq β] (seen : List β) (k : β) : List β :=
  if k ∈ seen then seen else seen ++ [k]

/-- The elements of `ks` not in `seen`, in first-appearance order. -/
def seenNew {β : Type} [DecidableEq β] (seen : List β) : List β → List β
  | [] => []
  | k :: ks => if k ∈ seen then seenNew seen ks else k :: seenNew (seen ++ [k]) ks

/-- All dict-row keys of a row list, in row order then key order. -/
def dictRowKeys (rows : List PyVal) : List String :=
  rows.flatMap (fun r => match r with | .dictV es => es.map Prod.fst | _ => [])

/-- The writer invocation `write_many` makes for one group. -/
def callOfGroup (t : GroupKey) (g : List Dump) : Call :=
  ⟨t, g.map (fun d => d.data), (g.headD default).mode,
   (g.headD default).strict_keys⟩

/-- Spec-side reading of the `write_many` plan: one call per distinct group
key in first-appearance order, over the submission-ordered jobs of that
group, with the mode and strict-keys flag of the group's first job. -/
def writeManyPlanSpec (ds : List Dump) : List Call :=
  (seenNew [] (ds.map dumpKey)).map
    (fun t => callOfGroup t (ds.filter (fun d => dumpKey d = t)))

/-- The job `d` with the merge mode and strict-keys flag replaced. -/
def withModeStrict (d : Dump) (m : String) (s : Bool) : Dump :=
  { d with mode := m, strict_keys := s }

/- Concrete fixtures used by the failing-input and witness theorems. -/

/-- A concrete dump generator (as `AsyncHistoryDumpGenerator.create` would
produce for a fixed configuration). -/
def c1Gen : PyVal → Dump :=
  fun _ => ⟨"hist.json", "append", "json", Option.none, .strV "x", false⟩

/-- A `HistoryManager` with capture fully configured — a registered dump
generator and an enabled, empty buffer of capacity 10 and tolerance 5. -/
def c1State : HistoryManager :=
  ⟨some ⟨[], 10, some 5⟩, some c1Gen, fun v => v⟩

/-- A concrete job for the grouping theorems. -/
def j1 : Dump := ⟨"g.json", "append", "json", Option.none, .dictV [("x", .intV 1)], false⟩

/-- A second job sharing `j1`'s group key with different payload. -/
def j2 : Dump := ⟨"g.json", "append", "json", Option.none, .dictV [("y", .intV 2)], false⟩

/- ===================== helper lemmas ===================== -/

theorem dictGet_dictSet (es : List (String × PyVal)) (k : String) (v : PyVal)
    (k2 : String) :
    dictGet (dictSet es k v) k2 = if k = k2 then some v else dictGet es k2 := by
  induction es with
  | nil => by_cases h : k = k2 <;> simp [dictSet, dictGet, h]
  | cons kv rest ih =>
      obtain ⟨k0, v0⟩ := kv
      by_cases h0 : k0 = k
      · subst h0
        by_cases h2 : k0 = k2 <;> simp [dictSet, dictGet, h2]
      · by_cases h2 : k0 = k2
        · subst h2
          have hk : ¬ k = k0 := fun hh => h0 hh.symm
          simp [dictSet, dictGet, h0, hk]
        · simp [dictSet, dictGet, h0, h2, ih]

theorem dictGet_eq_none_of_not_mem (es : List (String × PyVal)) (k : String)
    (h : k ∉ es.map Prod.fst) : dictGet es k = Option.none := by
  induction es with
  | nil => simp [dictGet]
  | cons kv rest ih =>
      simp only [List.map_cons, List.mem_cons] at h
      push_neg at h
      have h1 : ¬ kv.1 = k := fun he => h.1 he.symm
      simp [dictGet, h1, ih h.2]

theorem dictGet_dictUpdate (d1 d2 : List (String × PyVal)) (k : String)
    (h : (d2.map Prod.fst).Nodup) :
    dictGet (dictUpdate d1 d2) k =
      match dictGet d2 k with
      | some v => some v
      | Option.none => dictGet d1 k := by
  induction d2 generalizing d1 with
  | nil => simp [dictUpdate, dictGet]
  | cons kv rest ih =>
      obtain ⟨k0, v0⟩ := kv
      simp only [List.map_cons, List.nodup_cons] at h
      have step : dictUpdate d1 ((k0, v0) :: rest) = dictUpdate (dictSet d1 k0 v0) rest := by
        simp [dictUpdate]
      rw [step, ih _ h.2]
      by_cases hk : k0 = k
      · subst hk
        have hnone : dictGet rest k0 = Option.none :=
          dictGet_eq_none_of_not_mem _ _ h.1
        simp [hnone, dictGet, dictGet_dictSet]
      · simp [dictGet, hk, dictGet_dictSet]

/-- The dict-row keys contributed by a single row. -/
def rowKeysOf : PyVal → List String
  | .dictV es => es.map Prod.fst
  | _ => []

theorem collectHeaders_cons (seed : List String) (r : PyVal) (rest : List PyVal) :
    collectHeaders seed (r :: rest)
      = collectHeaders ((rowKeysOf r).foldl addNew seed) rest := by
  cases r <;> simp [collectHeaders, rowKeysOf, List.foldl_map, addNew]

theorem dictRowKeys_cons (r : PyVal) (rest : List PyVal) :
    dictRowKeys (r :: rest) = rowKeysOf r ++ dictRowKeys rest := by
  cases r <;> simp [dictRowKeys, rowKeysOf]

/-- The header-collection loop, re-expressed as a fold of single keys over
the concatenated dict-row keys. -/
theorem collectHeaders_eq_foldl (rows : List PyVal) :
    ∀ seed, collectHeaders seed rows = (dictRowKeys rows).foldl addNew seed := by
  induction rows with
  | nil => intro seed; rfl
  | cons r rest ih =>
      intro seed
      rw [collectHeaders_cons, ih, dictRowKeys_cons, List.foldl_append]

/-- Folding first-appearance key accumulation appends exactly the unseen
keys, in first-appearance order. -/
theorem foldl_addNew_eq (ks : List String) :
    ∀ seed, ks.foldl addNew seed = seed ++ seenNew seed ks := by
  induction ks with
  | nil => intro seed; simp [seenNew]
  | cons k rest ih =>
      intro seed
      by_cases hk : k ∈ seed
      · simp [List.foldl_cons, addNew, hk, ih, seenNew]
      · simp only [List.foldl_cons, addNew, hk, if_neg hk, ite_false, seenNew]
        rw [ih]
        simp [List.append_assoc]

theorem seenNew_cons {β : Type} [DecidableEq β] (seen : List β) (k : β)
    (ks : List β) :
    seenNew seen (k :: ks)
      = if k ∈ seen then seenNew seen ks else k :: seenNew (seen ++ [k]) ks := rfl

theorem seenNew_not_mem {β : Type} [DecidableEq β] (ks : List β) :
    ∀ (seen : List β) (t : β), t ∈ seenNew seen ks → t ∉ seen := by
  induction ks with
  | nil => intro seen t h; simp [seenNew] at h
  | cons k rest ih =>
      intro seen t h
      by_cases hk : k ∈ seen
      · rw [seenNew, if_pos hk] at h
        exact ih seen t h
      · rw [seenNew, if_neg hk] at h
        rcases List.mem_cons.mp h with rfl | h2
        · exact hk
        · intro hts
          exact ih _ t h2 (List.mem_append_left _ hts)

theorem insertGroup_not_mem (gs : List (GroupKey × List Dump)) (t : GroupKey)
    (d : Dump) (h : t ∉ gs.map Prod.fst) :
    insertGroup gs t d = gs ++ [(t, [d])] := by
  induction gs with
  | nil => rfl
  | cons g rest ih =>
      obtain ⟨t0, ds0⟩ := g
      simp only [List.map_cons, List.mem_cons] at h
      push_neg at h
      have hne : t0 ≠ t := fun he => h.1 he.symm
      simp [insertGroup, hne, ih h.2]

theorem insertGroup_mem (gs : List (GroupKey × List Dump)) (t : GroupKey)
    (d : Dump) (hnd : (gs.map Prod.fst).Nodup) (h : t ∈ gs.map Prod.fst) :
    insertGroup gs t d
      = gs.map (fun p => if p.1 = t then (p.1, p.2 ++ [d]) else p) := by
  induction gs with
  | nil => simp at h
  | cons g rest ih =>
      obtain ⟨t0, ds0⟩ := g
      simp only [List.map_cons, List.nodup_cons] at hnd
      by_cases h0 : t0 = t
      · subst h0
        have hrest : ∀ p ∈ rest, ¬ p.1 = t0 := by
          intro p hp hpt
          exact hnd.1 (hpt ▸ List.mem_map_of_mem Prod.fst hp)
        have hmap : rest.map (fun p => if p.1 = t0 then (p.1, p.2 ++ [d]) else p)
            = rest := by
          conv_rhs => rw [← List.map_id rest]
          apply List.map_congr_left
          intro p hp
          simp [hrest p hp]
        simp [insertGroup, hmap]
      · have ht : t ∈ rest.map Prod.fst := by
          rcases List.mem_cons.mp h with h1 | h1
          · exact absurd h1.symm h0
          · exact h1
        simp [insertGroup, h0, ih hnd.2 ht]

theorem groupJobs_gen (ds : List Dump) :
    ∀ (acc : List (GroupKey × List Dump)), (acc.map Prod.fst).Nodup →
      ds.foldl (fun gs d => insertGroup gs (dumpKey d) d) acc
        = acc.map (fun p => (p.1, p.2 ++ ds.filter (fun x => dumpKey x = p.1)))
          ++ (seenNew (acc.map Prod.fst) (ds.map dumpKey)).map
              (fun t => (t, ds.filter (fun x => dumpKey x = t))) := by
  induction ds with
  | nil =>
      intro acc hnd
      simp [seenNew]
  | cons d rest ih =>
      intro acc hnd
      rw [List.foldl_cons]
      by_cases hmem : dumpKey d ∈ acc.map Prod.fst
      · rw [insertGroup_mem acc (dumpKey d) d hnd hmem]
        have hkeys :
            (acc.map (fun p => if p.1 = dumpKey d then (p.1, p.2 ++ [d]) else p)).map
              Prod.fst = acc.map Prod.fst := by
          rw [List.map_map]
          exact List.map_congr_left
            (fun p _ => by by_cases hp : p.1 = dumpKey d <;> simp [hp])
        rw [ih _ (by rw [hkeys]; exact hnd), hkeys, List.map_map,
          List.map_cons, seenNew_cons, if_pos hmem]
        congr 1
        · apply List.map_congr_left
          intro p _
          by_cases hp : p.1 = dumpKey d
          · simp [Function.comp, hp, List.filter_cons, List.append_assoc]
          · have hp2 : ¬ dumpKey d = p.1 := fun he => hp he.symm
            simp [Function.comp, hp, List.filter_cons, hp2]
        · apply List.map_congr_left
          intro t ht
          have hne : ¬ dumpKey d = t := fun he =>
            (seenNew_not_mem _ _ _ ht) (he ▸ hmem)
          simp [List.filter_cons, hne]
      · rw [insertGroup_not_mem acc (dumpKey d) d hmem]
        have hkeys : ((acc ++ [(dumpKey d, [d])]).map Prod.fst)
            = acc.map Prod.fst ++ [dumpKey d] := by simp
        have hnd2 : (((acc ++ [(dumpKey d, [d])]).map Prod.fst)).Nodup := by
          rw [hkeys]
          simp [List.nodup_append, hnd, hmem]
        rw [List.map_cons, seenNew_cons, if_neg hmem, List.map_cons]
        rw [ih _ hnd2, hkeys, List.map_append]
        have hacc : acc.map
              (fun p => (p.1, p.2 ++ rest.filter (fun x => dumpKey x = p.1)))
            = acc.map
              (fun p => (p.1, p.2 ++ (d :: rest).filter (fun x => dumpKey x = p.1))) := by
          apply List.map_congr_left
          intro p hp
          have hne : ¬ dumpKey d = p.1 := by
            intro he
            exact hmem (he ▸ List.mem_map_of_mem Prod.fst hp)
          simp [List.filter_cons, hne]
        have hmid : ((dumpKey d : GroupKey), [d] ++ rest.filter (fun x => dumpKey x = dumpKey d))
            = (dumpKey d, (d :: rest).filter (fun x => dumpKey x = dumpKey d)) := by
          simp [List.filter_cons]
        have htail : (seenNew (acc.map Prod.fst ++ [dumpKey d]) (rest.map dumpKey)).map
              (fun t => (t, rest.filter (fun x => dumpKey x = t)))
            = (seenNew (acc.map Prod.fst ++ [dumpKey d]) (rest.map dumpKey)).map
              (fun t => (t, (d :: rest).filter (fun x => dumpKey x = t))) := by
          apply List.map_congr_left
          intro t ht
          have hne : ¬ dumpKey d = t := by
            intro he
            exact (seenNew_not_mem _ _ _ ht)
              (he ▸ List.mem_append_right _ (List.mem_singleton.mpr rfl))
          simp [List.filter_cons, hne]
        rw [← hacc, ← hmid, ← htail]
        simp [List.append_assoc]

theorem groupJobs_eq_filter (ds : List Dump) :
    groupJobs ds = (seenNew [] (ds.map dumpKey)).map
      (fun t => (t, ds.filter (fun x => dumpKey x = t))) := by
  have h := groupJobs_gen ds [] (by simp)
  simpa [groupJobs] using h

/-- The `write_many` plan, characterized group by group. -/
theorem writeManyPlan_eq_spec (ds : List Dump) :
    writeManyPlan ds = writeManyPlanSpec ds := by
  rw [writeManyPlan, groupJobs_eq_filter, writeManyPlanSpec, List.map_map]
  rfl

theorem headD_append_left {α : Type} (l1 l2 : List α) (dflt : α)
    (h : l1 ≠ []) : (l1 ++ l2).headD dflt = l1.headD dflt := by
  cases l1 with
  | nil => exact absurd rfl h
  | cons a t => rfl

/-- Replacing one non-first job of a group by another with the same payload
leaves the group call unchanged. -/
theorem callOfGroup_mid (t : GroupKey) (fpre fpost : List Dump) (a b : Dump)
    (hdata : a.data = b.data) (hpre : fpre ≠ []) :
    callOfGroup t (fpre ++ a :: fpost) = callOfGroup t (fpre ++ b :: fpost) := by
  cases fpre with
  | nil => exact absurd rfl hpre
  | cons p ps => simp [callOfGroup, hdata]

/- ===================== claim theorems ===================== -/

/-- C1 (failing-input evaluation).  The claim says `append` is a no-op iff
capture is disabled (no registered dump generator, or buffer disabled /
`None`).  On the code, a configured manager whose enabled buffer is simply
empty — the state every fresh manager starts in — also makes `append`
return immediately: `if not self.history` tests Python list truthiness,
so nothing is ever inserted through the public API. -/
theorem claim1_append_noop_on_enabled_empty :
    hmAppend c1State (.dictV [("query", .strV "q")])
      = ⟨c1State, Option.none, Option.none⟩
    ∧ c1State.history_dump_generator.isSome = true
    ∧ c1State.history = some ⟨[], 10, some 5⟩
    ∧ (c1State.history.map (fun l => l.items)) = some [] := by
  exact ⟨rfl, rfl, rfl, rfl⟩

/-- C2.  For a buffer with finite tolerance, `append` raises exactly when
the pre-append length strictly exceeds `max_length + tolerance` (and, in
the source, the overflow guard raises before the underlying insert, so the
buffer is untouched — here: no success state exists); with unlimited
tolerance it never raises; on success the item lands at the tail, bounds
are unchanged, and the full signal fires exactly when the new length has
reached the capacity. -/
theorem claim2_buffer_overflow {α : Type} (l : CloggableList α) (x : α) :
    (∀ t, l.tolerance = some t →
      ((∃ e, clAppend l x = .error e) ↔ l.max_length + t < l.items.length))
    ∧ (l.tolerance = Option.none → ∃ r, clAppend l x = .ok r)
    ∧ (∀ l2 sig, clAppend l x = .ok (l2, sig) →
        l2.items = l.items ++ [x] ∧ l2.max_length = l.max_length ∧
        l2.tolerance = l.tolerance ∧
        (sig = true ↔ l.max_length ≤ l.items.length + 1)) := by
  refine ⟨?_, ?_, ?_⟩
  · intro t ht
    constructor
    · rintro ⟨e, he⟩
      by_contra hlt
      push_neg at hlt
      have htol : clTolerable l = true := by simp [clTolerable, ht]; omega
      rw [clAppend, if_neg (by simp [htol])] at he
      exact Except.noConfusion he
    · intro hlt
      have htol : clTolerable l = false := by
        simp only [clTolerable, ht]
        simp
        omega
      refine ⟨"OverflowError: list is full", ?_⟩
      rw [clAppend, if_pos (by simp [htol])]
  · intro ht
    have htol : clTolerable l = true := by simp [clTolerable, ht]
    refine ⟨(⟨l.items ++ [x], l.max_length, l.tolerance⟩,
      clFull ⟨l.items ++ [x], l.max_length, l.tolerance⟩), ?_⟩
    rw [clAppend, if_neg (by simp [htol])]
  · intro l2 sig h
    by_cases htol : clTolerable l = true
    · rw [clAppend, if_neg (by simp [htol])] at h
      simp only [Except.ok.injEq, Prod.mk.injEq] at h
      obtain ⟨hl2, hsig⟩ := h
      subst hl2
      refine ⟨rfl, rfl, rfl, ?_⟩
      subst hsig
      simp [clFull]
    · have hf : clTolerable l = false := by
        revert htol
        cases clTolerable l <;> simp
      rw [clAppend, if_pos (by simp [hf])] at h
      exact Except.noConfusion h

/-- C2 witness: the overflow iff, the unlimited-tolerance success and the
success shape instantiated at concrete buffers. -/
theorem claim2_buffer_overflow_witness :
    ((∃ e, clAppend (⟨[0, 0, 0, 0], 2, some 1⟩ : CloggableList Nat) 7
        = .error e) ↔ 2 + 1 < 4)
    ∧ (∃ r, clAppend (⟨[5], 2, Option.none⟩ : CloggableList Nat) 7 = .ok r)
    ∧ ((⟨[3, 9], 2, some 1⟩ : CloggableList Nat).items = [3] ++ [9]
        ∧ (⟨[3, 9], 2, some 1⟩ : CloggableList Nat).max_length = 2
        ∧ (⟨[3, 9], 2, some 1⟩ : CloggableList Nat).tolerance = some 1
        ∧ (true = true ↔ 2 ≤ 1 + 1)) := by
  exact ⟨(claim2_buffer_overflow ⟨[0, 0, 0, 0], 2, some 1⟩ 7).1 1 rfl,
    (claim2_buffer_overflow ⟨[5], 2, Option.none⟩ 7).2.1 rfl,
    (claim2_buffer_overflow ⟨[3], 2, some 1⟩ 9).2.2 ⟨[3, 9], 2, some 1⟩ true rfl⟩

/-- C3 (failing-input evaluation).  The claim — and the class's own
docstring — say `extract()` with no selector arguments behaves like
`flush()`.  On the code, `extract()` with no arguments flattens to an
empty index set, removes nothing and returns the empty tuple, while
`flush()` returns all items and clears the buffer. -/
theorem claim3_extract_noargs_eval :
    clExtract (⟨[7], 3, some 0⟩ : CloggableList Nat) []
      = .ok ([], ⟨[7], 3, some 0⟩)
    ∧ clFlush (⟨[7], 3, some 0⟩ : CloggableList Nat) = ([7], ⟨[], 3, some 0⟩)
    ∧ ([] : List Nat) ≠ [7] := by
  refine ⟨rfl, rfl, by simp⟩

/-- C4 (counterexample).  The claim says the line-format batch splices
every sequence item element by element.  A tuple payload is an ordered
sequence in the data model (and is what the job factory produces when it
timestamps a scalar), yet `write_batch` splices only `list` items: the
tuple becomes a single rendered row, where the claimed flattening — and a
single `write_single` of the same payload — produce two rows. -/
theorem claim4_counterexample :
    txtWriteBatch Option.none [.tupleV [.intV 1, .intV 2]] "overwrite"
      = (some ["(1, 2)"], Option.none)
    ∧ txtWriteBatchClaimed Option.none [.tupleV [.intV 1, .intV 2]] "overwrite"
      = (some ["1", "2"], Option.none)
    ∧ txtWriteSingle Option.none (.tupleV [.intV 1, .intV 2]) "overwrite"
      = (some ["1", "2"], Option.none)
    ∧ (["(1, 2)"] : List String) ≠ ["1", "2"] := by
  refine ⟨rfl, rfl, rfl, by decide⟩

/-- If a batch fold has already recorded an error, the remaining payloads
are skipped and the state is returned unchanged. -/
theorem foldlWriteStuck (ds : List PyVal) (mode : String)
    (key : Option (List String)) (strict : Bool) (f : JsonFile) (e : String) :
    ds.foldl
      (fun st d =>
        match st.2 with
        | some _ => st
        | Option.none => jsonWriteSingle st.1 d mode key strict)
      (f, some e) = (f, some e) := by
  induction ds with
  | nil => rfl
  | cons d rest ih => simpa using ih

/-- The flat-batch flattening fold, with the accumulator made explicit. -/
theorem flattenBatch_gen (ds : List PyVal) (acc : List PyVal) :
    ds.foldl (fun acc2 d => match d with | .listV xs => acc2 ++ xs | x => acc2 ++ [x]) acc
      = acc ++ ds.flatMap (fun d => match d with | .listV xs => xs | x => [x]) := by
  induction ds generalizing acc with
  | nil => simp
  | cons d rest ih =>
      cases d <;> simp [List.foldl_cons, ih, List.append_assoc]

/-- C4 (amended).  The document-format batch is the sequential fold of
single writes over the same file; the line- and table-format batches are a
single read-merge-write over the flattened batch, where flattening splices
exactly the `list` items element by element and keeps every other item —
including tuple and set payloads — as one element. -/
theorem claim4_batch_asymmetry :
    (∀ f ds mode key strict,
      jsonWriteBatch f ds mode key strict = jsonSeqSingles f ds mode key strict)
    ∧ (∀ f ds mode,
        txtWriteBatch f ds mode = txtWriteSingle f (.listV (flattenBatch ds)) mode)
    ∧ (∀ f ds mode,
        csvWriteBatch f ds mode = csvWriteSingle f (.listV (flattenBatch ds)) mode)
    ∧ (∀ ds, flattenBatch ds
        = ds.flatMap (fun d => match d with | .listV xs => xs | x => [x])) := by
  refine ⟨?_, ?_, ?_, ?_⟩
  · intro f ds mode key strict
    induction ds generalizing f with
    | nil => rfl
    | cons d rest ih =>
        simp only [jsonWriteBatch]
        cases h : jsonWriteSingle f d mode key strict with
        | mk f2 e =>
            cases e with
            | none =>
                show jsonWriteBatch f2 rest mode key strict
                  = jsonSeqSingles f (d :: rest) mode key strict
                rw [ih]
                simp [jsonSeqSingles, h]
            | some e =>
                show (f2, some e) = jsonSeqSingles f (d :: rest) mode key strict
                simp [jsonSeqSingles, h, foldlWriteStuck]
  · intro f ds mode
    rfl
  · intro f ds mode
    rfl
  · intro ds
    simpa using flattenBatch_gen ds []

/-- C8.  The flat merge algebra: `overwrite` yields the normalized new
value, `append`/`extend`/`update` yield normalized existing followed by
normalized new, any other mode is a validation error; normalization sends
null to the empty list, any list/tuple/set to its elements, and any
scalar — including a string — to a one-element list. -/
theorem claim8_flat_merge_algebra :
    (∀ e n, merge_flat e n "overwrite" = .ok (force_list n))
    ∧ (∀ e n m, m = "append" ∨ m = "extend" ∨ m = "update" →
        merge_flat e n m = .ok (force_list e ++ force_list n))
    ∧ (∀ e n m, m ≠ "overwrite" → m ≠ "append" → m ≠ "extend" → m ≠ "update" →
        ∃ err, merge_flat e n m = .error err)
    ∧ force_list .noneV = []
    ∧ (∀ s, force_list (.strV s) = [.strV s])
    ∧ (∀ b, force_list (.boolV b) = [.boolV b])
    ∧ (∀ n, force_list (.intV n) = [.intV n])
    ∧ (∀ es, force_list (.dictV es) = [.dictV es])
    ∧ (∀ xs, force_list (.listV xs) = xs)
    ∧ (∀ xs, force_list (.tupleV xs) = xs)
    ∧ (∀ xs, force_list (.setV xs) = xs) := by
  refine ⟨fun e n => rfl, ?_, ?_, rfl, fun s => rfl, fun b => rfl, fun n => rfl,
    fun es => rfl, fun xs => rfl, fun xs => rfl, fun xs => rfl⟩
  · rintro e n m (rfl | rfl | rfl) <;> rfl
  · intro e n m h1 h2 h3 h4
    refine ⟨"ValueError: unsupported mode " ++ m ++ " for flat output", ?_⟩
    simp only [merge_flat]
    rw [if_neg h1, if_neg (by simp [h2, h3, h4])]

/-- C8 witness: the hypothesis-bearing conjuncts instantiated at concrete
inputs. -/
theorem claim8_flat_merge_algebra_witness :
    merge_flat (.listV [.strV "x"]) (.strV "a") "append"
      = .ok (force_list (.listV [.strV "x"]) ++ force_list (.strV "a"))
    ∧ ∃ err, merge_flat (.listV []) (.listV []) "invalid" = .error err := by
  exact ⟨(claim8_flat_merge_algebra.2.1 _ _ "append" (Or.inl rfl)),
    claim8_flat_merge_algebra.2.2.1 _ _ "invalid" (by decide) (by decide)
      (by decide) (by decide)⟩

/-- C5.  CSV header reconciliation: writing `{a:1, b:2}` with overwrite
and then `{b:3, c:4}` with append yields the header row `[a, b, c]` and
the data rows `[1, 2, ""]` and `["", 3, 4]`; in general the computed
header is the seed header followed by the unseen mapping keys in
first-appearance order, and a list row is mapped positionally onto the
header, padded with empty cells and truncated at the header length. -/
theorem claim5_csv_header_reconciliation :
    csvWriteSingle
        (csvWriteSingle Option.none (.dictV [("a", .intV 1), ("b", .intV 2)])
          "overwrite").1
        (.dictV [("b", .intV 3), ("c", .intV 4)]) "append"
      = (some [["a", "b", "c"], ["1", "2", ""], ["", "3", "4"]], Option.none)
    ∧ (∀ seed rows,
        collectHeaders seed rows = seed ++ seenNew seed (dictRowKeys rows))
    ∧ (∀ headers xs, rowCells headers (.listV xs) = .ok (padCells headers xs))
    ∧ (∀ headers xs, (padCells headers xs).length = headers.length)
    ∧ (∀ headers xs i, (padCells headers xs)[i]? =
        if i < headers.length
        then some (match xs[i]? with | some v => pyStr v | Option.none => "")
        else Option.none) := by
  refine ⟨rfl, ?_, ?_, ?_, ?_⟩
  · intro seed rows
    rw [collectHeaders_eq_foldl, foldl_addNew_eq]
  · intro headers xs
    cases headers with
    | nil => rfl
    | cons h t =>
        cases t with
        | nil =>
            cases xs with
            | nil => rfl
            | cons x t => simp [rowCells, padCells, List.range_succ]
        | cons h2 t2 => rfl
  · intro headers xs
    simp [padCells]
  · intro headers xs i
    by_cases hi : i < headers.length
    · simp [padCells, List.getElem?_map, List.getElem?_range, hi]
    · simp [padCells, List.getElem?_map, List.getElem?_range, hi]
      omega

/-- C6 (counterexample).  The claim says that at a nested key with mode
append, any combination other than absent slot, sequence slot, or
mapping-onto-mapping is replaced by the two-element list
`[existing, payload]`.  A slot holding null is such an "other" combination,
yet the code retrieves it with `dict.get` — which conflates a stored null
with an absent key — and stores `[payload]` instead of
`[existing, payload]`. -/
theorem claim6_counterexample :
    apply_nested_json [("k", .noneV)] "k" (.intV 1) "append"
      = .ok [("k", .listV [.intV 1])]
    ∧ PyVal.listV [.intV 1] ≠ PyVal.listV [.noneV, .intV 1] := by
  refine ⟨rfl, ?_⟩
  intro h
  simp at h

/-- C6 (amended).  Root-level append of a mapping payload onto a mapping
target is a shallow key-union with payload values winning on conflicts; at
a nested key with mode append and non-strict keys, an absent addressed
slot — or one holding null, which `dict.get` cannot distinguish from
absent — creates intermediate mappings along an absent path and stores the
one-element list `[payload]`; a sequence slot receives the payload as one
pushed element; a mapping slot shallow-unions with a mapping payload; and
every other combination with a non-null existing value is replaced by the
two-element list `[existing, payload]`. -/
theorem claim6_tree_append_asymmetry :
    (∀ d1 d2, apply_mode_json (.dictV d1) (.dictV d2) "append"
        = .ok (.dictV (dictUpdate d1 d2)))
    ∧ (∀ d1 d2 k, (d2.map Prod.fst).Nodup →
        dictGet (dictUpdate d1 d2) k =
          match dictGet d2 k with
          | some v => some v
          | Option.none => dictGet d1 k)
    ∧ (∀ ks data, ks ≠ [] →
        applyNested (.dictV []) ks data "append" true
          = .ok (nestedSingleton ks data))
    ∧ (∀ es k data, (dictGet es k).getD .noneV = .noneV →
        apply_nested_json es k data "append"
          = .ok (dictSet es k (.listV [data])))
    ∧ (∀ es k xs data, dictGet es k = some (.listV xs) →
        apply_nested_json es k data "append"
          = .ok (dictSet es k (.listV (xs ++ [data]))))
    ∧ (∀ es k d1 d2, dictGet es k = some (.dictV d1) →
        apply_nested_json es k (.dictV d2) "append"
          = .ok (dictSet es k (.dictV (dictUpdate d1 d2))))
    ∧ (∀ es k t data, dictGet es k = some t → t ≠ .noneV →
        (∀ xs, t ≠ .listV xs) →
        ((∃ ds, t = .dictV ds) → ∀ es2, data ≠ .dictV es2) →
        apply_nested_json es k data "append"
          = .ok (dictSet es k (.listV [t, data]))) := by
  refine ⟨fun d1 d2 => rfl, fun d1 d2 k h => dictGet_dictUpdate d1 d2 k h,
    ?_, ?_, ?_, ?_, ?_⟩
  · intro ks data hne
    induction ks with
    | nil => exact absurd rfl hne
    | cons k rest ih =>
        cases rest with
        | nil => rfl
        | cons k2 rest2 =>
            have h2 := ih (by simp)
            simp only [applyNested, dictGet] at h2 ⊢
            rw [h2]
            rfl
  · intro es k data h
    simp only [apply_nested_json]
    rw [h]
    simp [nestedAppendSlot]
  · intro es k xs data h
    simp only [apply_nested_json]
    rw [h]
    rfl
  · intro es k d1 d2 h
    simp only [apply_nested_json]
    rw [h]
    rfl
  · intro es k t data hget hnone hlist hdict
    simp only [apply_nested_json]
    rw [hget]
    cases t with
    | noneV => exact absurd rfl hnone
    | listV xs => exact absurd rfl (hlist xs)
    | dictV ds =>
        cases data with
        | dictV es2 => exact absurd rfl (hdict ⟨ds, rfl⟩ es2)
        | noneV => rfl
        | boolV b => rfl
        | intV n => rfl
        | strV s => rfl
        | listV xs => rfl
        | tupleV xs => rfl
        | setV xs => rfl
    | boolV b => rfl
    | intV n => rfl
    | strV s => rfl
    | tupleV xs => rfl
    | setV xs => rfl

/-- C6 witness: the hypothesis-bearing conjuncts instantiated — a truly
absent slot, a null-holding slot, a sequence slot, a mapping slot, the
wrap branch, and the lookup law of the shallow union. -/
theorem claim6_tree_append_asymmetry_witness :
    (dictGet (dictUpdate [("a", .intV 1), ("b", .intV 2)]
        [("b", .intV 9), ("c", .intV 3)]) "b"
      = match dictGet [("b", .intV 9), ("c", .intV 3)] "b" with
        | some v => some v
        | Option.none => dictGet [("a", .intV 1), ("b", .intV 2)] "b")
    ∧ applyNested (.dictV []) ["a", "b"] (.strV "p") "append" true
        = .ok (nestedSingleton ["a", "b"] (.strV "p"))
    ∧ apply_nested_json [] "k" (.intV 1) "append"
        = .ok (dictSet [] "k" (.listV [.intV 1]))
    ∧ apply_nested_json [("b", .listV [.intV 1])] "b" (.intV 2) "append"
        = .ok (dictSet [("b", .listV [.intV 1])] "b" (.listV ([.intV 1] ++ [.intV 2])))
    ∧ apply_nested_json [("m", .dictV [("x", .intV 1)])] "m"
          (.dictV [("y", .intV 2)]) "append"
        = .ok (dictSet [("m", .dictV [("x", .intV 1)])] "m"
            (.dictV (dictUpdate [("x", .intV 1)] [("y", .intV 2)])))
    ∧ apply_nested_json [("s", .strV "old")] "s" (.intV 7) "append"
        = .ok (dictSet [("s", .strV "old")] "s"
            (.listV [.strV "old", .intV 7])) := by
  refine ⟨claim6_tree_append_asymmetry.2.1 _ _ "b" (by simp),
    claim6_tree_append_asymmetry.2.2.1 ["a", "b"] (.strV "p") (by simp),
    claim6_tree_append_asymmetry.2.2.2.1 [] "k" (.intV 1) rfl,
    claim6_tree_append_asymmetry.2.2.2.2.1 _ "b" [.intV 1] (.intV 2) rfl,
    claim6_tree_append_asymmetry.2.2.2.2.2.1 _ "m" _ [("y", .intV 2)] rfl,
    claim6_tree_append_asymmetry.2.2.2.2.2.2 _ "s" (.strV "old") (.intV 7) rfl
      (by simp) (fun xs => by simp) ?_⟩
  rintro ⟨ds, hds⟩
  simp at hds

/-- Every error of the strict-key validator is a key error or a type
error. -/
theorem validate_strict_key_err (ks : List String) :
    ∀ v e, validate_strict_key v ks = .error e →
      e = "KeyError: strict key violation"
      ∨ e = "TypeError: strict key violation" := by
  induction ks with
  | nil =>
      intro v e h
      simp [validate_strict_key] at h
  | cons k rest ih =>
      intro v e h
      cases v with
      | dictV es =>
          simp only [validate_strict_key] at h
          cases hg : dictGet es k with
          | none =>
              rw [hg] at h
              cases h
              exact Or.inl rfl
          | some v2 =>
              rw [hg] at h
              exact ih v2 e h
      | noneV => cases h; exact Or.inr rfl
      | boolV b => cases h; exact Or.inr rfl
      | intV n => cases h; exact Or.inr rfl
      | strV s => cases h; exact Or.inr rfl
      | listV xs => cases h; exact Or.inr rfl
      | tupleV xs => cases h; exact Or.inr rfl
      | setV xs => cases h; exact Or.inr rfl

/-- C7.  A document-format write with strict keys and a nonempty key path
that fails validation — an absent segment or a non-mapping value along the
path — returns the strict-key error (a key error or type error) raised
before the destination is opened for writing, leaving the file exactly as
it was. -/
theorem claim7_strict_key_atomicity (f : JsonFile) (data : PyVal)
    (mode : String) (k : String) (ks : List String) (e : String)
    (hval : validate_strict_key (readJson f (some (k :: ks))) (k :: ks)
      = .error e) :
    jsonWriteSingle f data mode (some (k :: ks)) true = (f, some e)
    ∧ (e = "KeyError: strict key violation"
        ∨ e = "TypeError: strict key violation") := by
  have hcore : jsonWriteCore f data mode (some (k :: ks)) true = .error e := by
    simp [jsonWriteCore, keyTruthy, hval, discard, Functor.mapConst,
      Except.map, Bind.bind, Except.bind]
  exact ⟨by simp [jsonWriteSingle, hcore],
    validate_strict_key_err _ _ _ hval⟩

/-- C7 witness: a strict append through the path `a.b` of a document whose
`a` holds a scalar fails with the type error and leaves the file value
unchanged. -/
theorem claim7_strict_key_atomicity_witness :
    jsonWriteSingle (some (.dictV [("a", .intV 1)])) (.intV 0) "append"
        (some ["a", "b"]) true
      = (some (.dictV [("a", .intV 1)]), some "TypeError: strict key violation")
    ∧ ("TypeError: strict key violation" = "KeyError: strict key violation"
        ∨ "TypeError: strict key violation" = "TypeError: strict key violation") := by
  exact claim7_strict_key_atomicity (some (.dictV [("a", .intV 1)])) (.intV 0)
    "append" "a" ["b"] "TypeError: strict key violation" rfl

/-- C9 (counterexample).  The claim says a validation failure at job
construction happens before any I/O, in particular without creating the
destination's parent directories.  On the code, `__init__` normalizes the
path first, and `_normalize_path` runs `os.makedirs` on the parent
directory — so an invalid mode raises only after the directories were
created. -/
theorem claim9_counterexample :
    (mkAsyncHistoryDump "sub/file.json" "bogus" "__autodetect__" Option.none
        .noneV false).1 = ["makedirs sub/file.json"]
    ∧ ∃ e, (mkAsyncHistoryDump "sub/file.json" "bogus" "__autodetect__"
        Option.none .noneV false).2 = .error e := by
  exact ⟨rfl, ⟨_, rfl⟩⟩

/-- C9 (amended).  An invalid mode, an invalid explicit filetype, or an
unresolvable extension under autodetection is rejected synchronously at
construction with a validation error and no job is produced; but the
parent-directory creation performed by path normalization always runs
first, so it happens even when construction fails. -/
theorem claim9_validation_at_construction (path mode filetype : String)
    (key : Option (List String)) (data : PyVal) (strict : Bool) :
    ((mkAsyncHistoryDump path mode filetype key data strict).1
      = ["makedirs " ++ path])
    ∧ (mode ∉ validModes →
        (mkAsyncHistoryDump path mode filetype key data strict).2
          = .error ("ValueError: invalid mode " ++ mode))
    ∧ (∀ e, mode ∈ validModes → resolve_filetype path filetype = .error e →
        (mkAsyncHistoryDump path mode filetype key data strict).2 = .error e)
    ∧ (filetype = "__autodetect__" → strEndsWith path ".json" = false →
        strEndsWith path ".csv" = false → strEndsWith path ".txt" = false →
        resolve_filetype path filetype
          = .error "ValueError: cannot autodetect filetype from path") := by
  refine ⟨?_, ?_, ?_, ?_⟩
  · by_cases h : mode ∈ validModes
    · have h2 : ¬ mode ∉ validModes := fun hc => hc h
      rw [mkAsyncHistoryDump, if_neg h2]
      cases hr : resolve_filetype path filetype <;> simp [hr]
    · simp [mkAsyncHistoryDump, h]
  · intro h
    simp [mkAsyncHistoryDump, h]
  · intro e hmem herr
    have h2 : ¬ mode ∉ validModes := fun hc => hc hmem
    rw [mkAsyncHistoryDump, if_neg h2]
    simp [herr]
  · intro h1 h2 h3 h4
    subst h1
    simp [resolve_filetype, h2, h3, h4]

/-- C9 witness: the hypothesis-bearing conjuncts instantiated — an invalid
mode, a valid mode with an unresolvable autodetected extension, and the
extension analysis itself. -/
theorem claim9_validation_at_construction_witness :
    (mkAsyncHistoryDump "sub/file.json" "bogus" "__autodetect__" Option.none
        .noneV false).2 = .error "ValueError: invalid mode bogus"
    ∧ (mkAsyncHistoryDump "sub/file.data" "append" "__autodetect__" Option.none
        .noneV false).2
        = .error "ValueError: cannot autodetect filetype from path"
    ∧ resolve_filetype "sub/file.data" "__autodetect__"
        = .error "ValueError: cannot autodetect filetype from path" := by
  refine ⟨(claim9_validation_at_construction "sub/file.json" "bogus"
      "__autodetect__" Option.none .noneV false).2.1 (by decide), ?_, ?_⟩
  · exact (claim9_validation_at_construction "sub/file.data" "append"
      "__autodetect__" Option.none .noneV false).2.2.1
      "ValueError: cannot autodetect filetype from path" (by decide) (by rfl)
  · exact (claim9_validation_at_construction "sub/file.data" "append"
      "__autodetect__" Option.none .noneV false).2.2.2 rfl (by rfl)
      (by rfl) (by rfl)

/-- C10.  `write_many` groups jobs only by (destination path, filetype,
key): the dispatch plan is one call per group key in first-appearance
order, carrying the submission-ordered payloads of that group together
with the mode and strict-keys flag of the group's first job; consequently,
replacing the mode and strict-keys flag of any job that is not the first
of its group leaves the whole plan unchanged. -/
theorem claim10_group_mode_from_first :
    (∀ ds, writeManyPlan ds = writeManyPlanSpec ds)
    ∧ (∀ pre d post m s, (∃ d2 ∈ pre, dumpKey d2 = dumpKey d) →
        writeManyPlan (pre ++ withModeStrict d m s :: post)
          = writeManyPlan (pre ++ d :: post)) := by
  refine ⟨writeManyPlan_eq_spec, ?_⟩
  intro pre d post m s hex
  rw [writeManyPlan_eq_spec, writeManyPlan_eq_spec]
  have hkey : dumpKey (withModeStrict d m s) = dumpKey d := rfl
  have hdata : (withModeStrict d m s).data = d.data := rfl
  unfold writeManyPlanSpec
  have hmap : (pre ++ withModeStrict d m s :: post).map dumpKey
      = (pre ++ d :: post).map dumpKey := by
    simp [hkey]
  rw [hmap]
  apply List.map_congr_left
  intro t ht
  rw [List.filter_append, List.filter_append, List.filter_cons,
    List.filter_cons, hkey]
  by_cases hdt : dumpKey d = t
  · rw [if_pos (by simp [hdt]), if_pos (by simp [hdt])]
    obtain ⟨d2, hd2, hk2⟩ := hex
    have hd2f : d2 ∈ pre.filter (fun x => dumpKey x = t) := by
      rw [List.mem_filter]
      exact ⟨hd2, by simp [hk2, hdt]⟩
    exact callOfGroup_mid t _ _ _ _ hdata
      (fun hnil => by rw [hnil] at hd2f; simp at hd2f)
  · rw [if_neg (by simp [hdt]), if_neg (by simp [hdt])]

/-- C10 witness: in a two-job group to the same destination, changing the
second job's mode and strict-keys flag does not change the plan. -/
theorem claim10_group_mode_from_first_witness :
    writeManyPlan ([j1] ++ withModeStrict j2 "overwrite" true :: [])
      = writeManyPlan ([j1] ++ j2 :: []) := by
  exact claim10_group_mode_from_first.2 [j1] j2 [] "overwrite" true
    ⟨j1, by simp, rfl⟩

end AsyncSqliteManager
